import Mathlib

/-!
Verification of the UI-definition synchronization tool (push/pull of UI
definitions between a remote document store and a local file tree).

Shallow embedding conventions:
* Byte sequences are `List Nat` with every entry `< 256`; a text string is
  represented either as a Lean `String` or, at the transport layer, by the
  list of its character codes (the wire strings are pure ASCII).
* The deflate compression (`gzipSync` / `gunzipSync` from node zlib) is an
  external library; it is abstracted as a function parameter together with
  the hypothesis that decompression inverts compression on the relevant
  input.
* Base64 is modelled concretely (encoder and decoder over byte lists),
  mirroring `Buffer.toString(base64)` and `Buffer.from(s, base64)`.
* Filesystem effects (`mkdirSync`, `writeFileSafe`) are modelled as an
  emitted list of effect descriptions (`FsOp`), in emission order.
* The fallible external operations (JSON.parse, remote lookups) are
  modelled as `Option`-valued parameters.
-/

/-! ## Base64 codec over byte lists

Models the node semantics of `buf.toString(base64)` (encode bytes to the
codes of the base64 text) and `Buffer.from(text, base64)` (decode the codes
of a base64 text back to bytes).  Code 61 is the padding character. -/

/-- The 64 character codes of the base64 alphabet, in order. -/
def b64Alphabet : List Nat :=
  (List.range 26).map (fun n => 65 + n) ++
  (List.range 26).map (fun n => 97 + n) ++
  (List.range 10).map (fun n => 48 + n) ++ [43, 47]

/-- Character code of the base64 digit with value `n` (for `n < 64`). -/
def b64Code (n : Nat) : Nat := b64Alphabet.getD n 0

/-- Value of the base64 digit with character code `c`. -/
def b64Idx (c : Nat) : Nat := b64Alphabet.indexOf c

/-- Base64-encode a byte list into the character codes of its base64 text,
processing three input bytes into four output codes, padding with code 61. -/
def b64EncodeLoop : List Nat → List Nat
  | [] => []
  | [a] => [b64Code (a / 4), b64Code (a % 4 * 16), 61, 61]
  | [a, b] => [b64Code (a / 4), b64Code (a % 4 * 16 + b / 16), b64Code (b % 16 * 4), 61]
  | a :: b :: c :: rest =>
      b64Code (a / 4) :: b64Code (a % 4 * 16 + b / 16) ::
      b64Code (b % 16 * 4 + c / 64) :: b64Code (c % 64) :: b64EncodeLoop rest

/-- Base64-decode the character codes of a base64 text back into bytes. -/
def b64DecodeLoop : List Nat → List Nat
  | c1 :: c2 :: c3 :: c4 :: rest =>
      if c3 = 61 then [b64Idx c1 * 4 + b64Idx c2 / 16]
      else if c4 = 61 then
        [b64Idx c1 * 4 + b64Idx c2 / 16, b64Idx c2 % 16 * 16 + b64Idx c3 / 4]
      else
        (b64Idx c1 * 4 + b64Idx c2 / 16) :: (b64Idx c2 % 16 * 16 + b64Idx c3 / 4) ::
        (b64Idx c3 % 4 * 64 + b64Idx c4) :: b64DecodeLoop rest
  | _ => []

/-- A byte list: every entry below 256. -/
def isBytes (l : List Nat) : Bool := l.all (fun x => x < 256)

theorem b64Idx_b64Code : ∀ n, n < 64 → b64Idx (b64Code n) = n := by decide

theorem b64Code_ne_pad : ∀ n, n < 64 → b64Code n ≠ 61 := by decide

theorem b64Code_lt_128 (n : Nat) : b64Code n < 128 := by
  by_cases h : n < 64
  · revert n h
    decide
  · have hlen : b64Alphabet.length ≤ n := by
      have : b64Alphabet.length = 64 := by decide
      omega
    unfold b64Code
    rw [List.getD_eq_default _ _ hlen]
    omega

theorem b64EncodeLoop_isBytes : ∀ l, isBytes (b64EncodeLoop l) = true
  | [] => rfl
  | [a] => by
      simp only [b64EncodeLoop, isBytes, List.all_cons, List.all_nil, Bool.and_true,
        Bool.and_eq_true, decide_eq_true_eq]
      refine ⟨?_, ?_, ?_, ?_⟩ <;> first
        | exact lt_trans (b64Code_lt_128 _) (by omega)
        | omega
  | [a, b] => by
      simp only [b64EncodeLoop, isBytes, List.all_cons, List.all_nil, Bool.and_true,
        Bool.and_eq_true, decide_eq_true_eq]
      refine ⟨?_, ?_, ?_, ?_⟩ <;> first
        | exact lt_trans (b64Code_lt_128 _) (by omega)
        | omega
  | a :: b :: c :: rest => by
      have ih := b64EncodeLoop_isBytes rest
      simp only [b64EncodeLoop, isBytes, List.all_cons, Bool.and_eq_true, decide_eq_true_eq] at *
      refine ⟨?_, ?_, ?_, ?_, ih⟩ <;>
        exact lt_trans (b64Code_lt_128 _) (by omega)

theorem b64_roundtrip : ∀ l, isBytes l = true → b64DecodeLoop (b64EncodeLoop l) = l
  | [], _ => rfl
  | [a], h => by
      have ha : a < 256 := by
        simp only [isBytes, List.all_cons, List.all_nil, Bool.and_true, decide_eq_true_eq] at h
        exact h
      show b64DecodeLoop [b64Code (a / 4), b64Code (a % 4 * 16), 61, 61] = [a]
      simp only [b64DecodeLoop, if_true]
      rw [b64Idx_b64Code _ (by omega), b64Idx_b64Code _ (by omega)]
      simp only [List.cons.injEq, and_true]
      omega
  | [a, b], h => by
      have hab : a < 256 ∧ b < 256 := by
        simp only [isBytes, List.all_cons, List.all_nil, Bool.and_true, Bool.and_eq_true,
          decide_eq_true_eq] at h
        exact h
      obtain ⟨ha, hb⟩ := hab
      show b64DecodeLoop
        [b64Code (a / 4), b64Code (a % 4 * 16 + b / 16), b64Code (b % 16 * 4), 61] = [a, b]
      simp only [b64DecodeLoop]
      rw [if_neg (b64Code_ne_pad (b % 16 * 4) (by omega))]
      simp only [if_true]
      rw [b64Idx_b64Code _ (by omega), b64Idx_b64Code _ (by omega),
        b64Idx_b64Code _ (by omega)]
      simp only [List.cons.injEq, and_true]
      omega
  | a :: b :: c :: rest, h => by
      have hmem : a < 256 ∧ b < 256 ∧ c < 256 ∧ isBytes rest = true := by
        simp only [isBytes, List.all_cons, Bool.and_eq_true, decide_eq_true_eq] at h ⊢
        exact ⟨h.1, h.2.1, h.2.2.1, h.2.2.2⟩
      obtain ⟨ha, hb, hc, hrest⟩ := hmem
      have ih := b64_roundtrip rest hrest
      show b64DecodeLoop
        (b64Code (a / 4) :: b64Code (a % 4 * 16 + b / 16) ::
         b64Code (b % 16 * 4 + c / 64) :: b64Code (c % 64) :: b64EncodeLoop rest) =
        a :: b :: c :: rest
      simp only [b64DecodeLoop]
      rw [if_neg (b64Code_ne_pad (b % 16 * 4 + c / 64) (by omega)),
        if_neg (b64Code_ne_pad (c % 64) (by omega))]
      rw [b64Idx_b64Code _ (by omega), b64Idx_b64Code _ (by omega),
        b64Idx_b64Code _ (by omega), b64Idx_b64Code _ (by omega), ih]
      simp only [List.cons.injEq, and_true]
      omega

/-! ## Content transport codec (claim C2)

Push side (`pushUI`, part_000 lines 44-48): gzip the JSON text, render the
compressed bytes as base64 text, then base64-encode the codes of that text
a second time.  Pull side (`pull.ts` lines 169-180,
`getDocumentAttachmentContent`): base64-decode the received text once and
gunzip.  The remote platform itself strips one base64 layer when the
document body is read back, modelled by `transportStrip`. -/

/-- Wire form produced by the push encoder: gzip, then base64 twice
(`Buffer.from(gzipped.toString(base64)).toString(base64)`).
The JSON text and the wire text are carried as lists of character codes. -/
def pushEncode (gzipF : List Nat → List Nat) (x : List Nat) : List Nat :=
  b64EncodeLoop (b64EncodeLoop (gzipF x))

/-- The single automatic base64 decode applied by the remote platform when
a stored document body is read back. -/
def transportStrip (w : List Nat) : List Nat := b64DecodeLoop w

/-- Pull decoder (`getDocumentAttachmentContent`): strip one base64 layer
from the received text, then gunzip. -/
def pullDecode (gunzipF : List Nat → List Nat) (w : List Nat) : List Nat :=
  gunzipF (b64DecodeLoop w)

/-- Claim C2: the push encoder gzips and applies base64 twice, the pull
decoder strips exactly one base64 layer and decompresses; hence for every
JSON text `x` (such that gunzip inverts gzip on it and gzip yields bytes),
decoding after the transport has stripped one encoding layer yields `x`. -/
theorem c2_codec_roundtrip (gzipF gunzipF : List Nat → List Nat) (x : List Nat)
    (hzip : gunzipF (gzipF x) = x) (hbytes : isBytes (gzipF x) = true) :
    pullDecode gunzipF (transportStrip (pushEncode gzipF x)) = x := by
  unfold pullDecode transportStrip pushEncode
  rw [b64_roundtrip _ (b64EncodeLoop_isBytes _), b64_roundtrip _ hbytes, hzip]

/-- Witness for C2: the identity compressor on the byte form of a small
JSON text satisfies both hypotheses, and the roundtrip evaluates. -/
theorem c2_codec_roundtrip_witness :
    (fun l : List Nat => l) ((fun l : List Nat => l) [123, 125]) = [123, 125] ∧
    isBytes ((fun l : List Nat => l) [123, 125]) = true ∧
    pullDecode (fun l => l) (transportStrip (pushEncode (fun l => l) [123, 125])) =
      [123, 125] :=
  ⟨rfl, by decide, c2_codec_roundtrip (fun l => l) (fun l => l) [123, 125] rfl (by decide)⟩

/-! ## Data model

Mirrors the shared type declarations used by the serializer (ui.types, per
the spec data model in section 3): `LegacySection` is a flat adjacency-list
node, `Tab` partitions legacy sections, `UiElement` is the recursive modern
element, and `UiDef` is the parsed unit with its optional collections
(`tabs`/`sections` for the legacy variant, `children` for the modern one).
Unknown extra presentation attributes are carried opaquely in `attrs`. -/

structure Tab where
  id : Nat
  name : String
deriving DecidableEq, Repr

structure LegacySection where
  id : Nat
  parentId : Option Nat
  page : Nat
  label : String
  script : Option String
  styles : Option String
  template : Option String
  properties : Option String
deriving DecidableEq, Repr

/-- The metadata object recorded for a serialized legacy section: the
section fields plus the generated file-path reference fields. -/
structure LegacySectionMeta where
  id : Nat
  parentId : Option Nat
  page : Nat
  label : String
  script : Option String
  styles : Option String
  template : Option String
  properties : Option String
  scriptUrl : Option String
  templateUrl : Option String
  propertiesUrl : Option String
deriving DecidableEq, Repr

inductive UiElement where
  | mk (script styles template : Option String) (children : List UiElement)

def UiElement.script : UiElement → Option String
  | .mk s _ _ _ => s

def UiElement.styles : UiElement → Option String
  | .mk _ s _ _ => s

def UiElement.template : UiElement → Option String
  | .mk _ _ t _ => t

def UiElement.children : UiElement → List UiElement
  | .mk _ _ _ c => c

/-- One parsed UI definition entry.  The collections are optional so that
both variants (and malformed shapes) are representable, as in the parsed
JSON the TypeScript code casts without validation. -/
structure UiDef where
  name : String
  attrs : List (String × String)
  tabs : Option (List Tab)
  sections : Option (List LegacySection)
  children : Option (List UiElement)

/-- Modern definition metadata: every field of the definition except
`children`, which is replaced by the collected child name list. -/
structure UiMetadata where
  name : String
  attrs : List (String × String)
  tabs : Option (List Tab)
  sections : Option (List LegacySection)
  children : List String

/-- Legacy definition metadata pushed into the record-scoped array:
the spread of the original definition with `sections` replaced by the
accumulated section metadata objects. -/
structure LegacyMetaOut where
  base : UiDef
  sections : List LegacySectionMeta

/-- Content written to a file: decoded text, stringified properties, a
modern metadata object, or the record-scoped legacy metadata array. -/
inductive FileContent where
  | text (s : String)
  | props (s : String)
  | uiMeta (m : UiMetadata)
  | legacyArr (l : List LegacyMetaOut)

/-- A filesystem effect, in emission order: ensure a directory exists
(`mkdirSync` with recursive), or write a file into a directory
(`writeFileSafe`, which creates the directory first). -/
inductive FsOp where
  | mkdir (dir : String)
  | write (dir file : String) (content : FileContent)

/-- Decode a base64 text to text (`fromBase64` from the shared ui.utils,
`Buffer.from(s, base64).toString()`), modelled with the concrete base64
decoder over character codes. -/
def fromBase64 (s : String) : String :=
  String.mk ((b64DecodeLoop (s.data.map Char.toNat)).map Char.ofNat)

/-! ## Legacy serializer (part_001 lines 80-136, claims C1, C6, C10)

`saveLegacySections` is the adjacency-list walk: the children of the
current parent are all sections of the list whose `parentId` equals the
current parent id, each visited at `path/label` and recursed into with its
own id.  The TypeScript recursion repeats the filter on the full list at
every level and therefore diverges on cyclic parent chains; the embedding
makes the recursion total with an explicit `fuel` bound, instantiated by
the callers with the section-list length, which dominates the depth of
every acyclic chain. -/

/-- The (section, directory) visit list of `saveLegacySections`, in
traversal order (a section is visited before its descendants). -/
def saveLegacySections (fuel : Nat) (sections : List LegacySection) (path : String)
    (parentId : Option Nat) : List (LegacySection × String) :=
  match fuel with
  | 0 => []
  | Nat.succ f =>
    (sections.filter (fun s => s.parentId == parentId)).flatMap (fun c =>
      (c, path ++ "/" ++ c.label) ::
        saveLegacySections f sections (path ++ "/" ++ c.label) (some c.id))

/-- `saveLegacySectionFiles`: write any present script, styles, template
and properties blob of the section to sibling files named from the label,
and build the metadata object in which each present inline blob is deleted
and the corresponding generated file path recorded (styles share the
`scriptUrl` field, as in the source). -/
def saveLegacySectionFiles (s : LegacySection) (dir : String) :
    LegacySectionMeta × List FsOp :=
  let jsName := s.label ++ ".js"
  let cssName := s.label ++ ".css"
  let htmlName := s.label ++ ".html"
  let jsonName := s.label ++ ".json"
  let scriptOps : List FsOp := match s.script with
    | some sc => [FsOp.write dir jsName (FileContent.text (fromBase64 sc))]
    | none => []
  let scriptUrlAfterScript : Option String := match s.script with
    | some _ => some (dir ++ "/" ++ jsName)
    | none => none
  let stylesOps : List FsOp := match s.styles with
    | some st => [FsOp.write dir cssName (FileContent.text (fromBase64 st))]
    | none => []
  let scriptUrlAfterStyles : Option String := match s.styles with
    | some _ => some (dir ++ "/" ++ cssName)
    | none => scriptUrlAfterScript
  let templateOps : List FsOp := match s.template with
    | some t => [FsOp.write dir htmlName (FileContent.text (fromBase64 t))]
    | none => []
  let templateUrl : Option String := match s.template with
    | some _ => some (dir ++ "/" ++ htmlName)
    | none => none
  let propertiesOps : List FsOp := match s.properties with
    | some p => [FsOp.write dir jsonName (FileContent.props p)]
    | none => []
  let propertiesUrl : Option String := match s.properties with
    | some _ => some (dir ++ "/" ++ jsonName)
    | none => none
  (⟨s.id, s.parentId, s.page, s.label,
    (match s.script with | some _ => none | none => s.script),
    (match s.styles with | some _ => none | none => s.styles),
    (match s.template with | some _ => none | none => s.template),
    (match s.properties with | some _ => none | none => s.properties),
    scriptUrlAfterStyles, templateUrl, propertiesUrl⟩,
   scriptOps ++ stylesOps ++ templateOps ++ propertiesOps)

/-- The visit list of `saveLegacyUiDefinition`: per tab, the sections of
that page are laid out under `path/tabName` starting from the sections
with no parent. -/
def legacyDefVisits (ui : UiDef) (path : String) : List (LegacySection × String) :=
  (ui.tabs.getD []).flatMap (fun tab =>
    let tabSections := (ui.sections.getD []).filter (fun s => s.page == tab.id)
    saveLegacySections tabSections.length tabSections (path ++ "/" ++ tab.name) none)

/-- `saveLegacyUiDefinition`: the metadata object pushed into the
record-scoped array (the definition with `sections` replaced by the
visited section metadata, in visit order) together with the emitted file
operations. -/
def saveLegacyUiDefinition (ui : UiDef) (path : String) : LegacyMetaOut × List FsOp :=
  (⟨ui, (legacyDefVisits ui path).map (fun v => (saveLegacySectionFiles v.1 v.2).1)⟩,
   (legacyDefVisits ui path).flatMap (fun v => (saveLegacySectionFiles v.1 v.2).2))

/-! ## Claim C1: adjacency-list reconstruction -/

/-- A parent chain through the flat section list: `SectionChain sections
pid cs` states that `cs` is a non-empty list of sections of `sections`
whose first element has `parentId = pid` and in which each later element
has the id of the previous element as its `parentId`. -/
inductive SectionChain (sections : List LegacySection) :
    Option Nat → List LegacySection → Prop where
  | single (pid : Option Nat) (s : LegacySection) (hmem : s ∈ sections)
      (hpid : s.parentId = pid) : SectionChain sections pid [s]
  | cons (pid : Option Nat) (s : LegacySection) (rest : List LegacySection)
      (hmem : s ∈ sections) (hpid : s.parentId = pid)
      (hrest : SectionChain sections (some s.id) rest) :
      SectionChain sections pid (s :: rest)

/-- Directory obtained by appending the labels of a chain to a base path. -/
def chainPath (path : String) (cs : List LegacySection) : String :=
  cs.foldl (fun p c => p ++ "/" ++ c.label) path

theorem chainPath_cons (path : String) (c : LegacySection) (l : List LegacySection) :
    chainPath path (c :: l) = chainPath (path ++ "/" ++ c.label) l := rfl

theorem saveLegacySections_mem_iff_chain (sections : List LegacySection) :
    ∀ (fuel : Nat) (path : String) (pid : Option Nat) (s : LegacySection) (dir : String),
    (s, dir) ∈ saveLegacySections fuel sections path pid ↔
      ∃ cs, SectionChain sections pid (cs ++ [s]) ∧ cs.length + 1 ≤ fuel ∧
        dir = chainPath path (cs ++ [s]) := by
  intro fuel
  induction fuel with
  | zero =>
    intro path pid s dir
    simp only [saveLegacySections, List.not_mem_nil, false_iff]
    rintro ⟨cs, _, hlen, _⟩
    omega
  | succ f IH =>
    intro path pid s dir
    constructor
    · intro hmem
      simp only [saveLegacySections, List.mem_flatMap] at hmem
      obtain ⟨c, hcf, hmem2⟩ := hmem
      rw [List.mem_filter] at hcf
      obtain ⟨hcs, hcp⟩ := hcf
      have hcpid : c.parentId = pid := by simpa using hcp
      rcases List.mem_cons.mp hmem2 with heq | hrec
      · simp only [Prod.mk.injEq] at heq
        obtain ⟨rfl, rfl⟩ := heq
        exact ⟨[], SectionChain.single pid s hcs hcpid, by simp, by simp [chainPath]⟩
      · obtain ⟨cs2, hchain2, hlen2, hdir2⟩ := (IH _ _ _ _).mp hrec
        refine ⟨c :: cs2, ?_, ?_, ?_⟩
        · exact SectionChain.cons pid c (cs2 ++ [s]) hcs hcpid hchain2
        · simp only [List.length_cons]
          omega
        · rw [List.cons_append, chainPath_cons]
          exact hdir2
    · rintro ⟨cs, hchain, hlen, hdir⟩
      cases cs with
      | nil =>
        simp only [List.nil_append] at hchain hdir
        cases hchain with
        | single _ _ hmem hpid =>
          simp only [saveLegacySections, List.mem_flatMap]
          refine ⟨s, List.mem_filter.mpr ⟨hmem, by simp [hpid]⟩, ?_⟩
          simp [chainPath] at hdir
          simp [hdir]
        | cons _ _ rest hmem hpid hrest => cases hrest
      | cons c cs2 =>
        simp only [List.cons_append] at hchain hdir
        obtain ⟨hd, tl, he⟩ : ∃ hd tl, cs2 ++ [s] = hd :: tl := by
          cases cs2 with
          | nil => exact ⟨s, [], rfl⟩
          | cons x xs => exact ⟨x, xs ++ [s], by simp⟩
        rw [he] at hchain
        cases hchain with
        | cons _ _ rest hmem hpid hrest =>
          rw [← he] at hrest
          simp only [saveLegacySections, List.mem_flatMap]
          refine ⟨c, List.mem_filter.mpr ⟨hmem, by simp [hpid]⟩, ?_⟩
          refine List.mem_cons.mpr (Or.inr ?_)
          refine (IH _ _ _ _).mpr ⟨cs2, hrest, ?_, ?_⟩
          · simp only [List.length_cons] at hlen
            omega
          · rw [chainPath_cons] at hdir
            exact hdir

/-- The three-section example of the spec: A with no parent, B child of A,
C child of B, all on page 7 shown by tab Tab1. -/
def exampleSections : List LegacySection :=
  [⟨1, none, 7, "A", none, none, none, none⟩,
   ⟨2, some 1, 7, "B", none, none, none, none⟩,
   ⟨3, some 2, 7, "C", none, none, none, none⟩]

def exampleLegacyUi : UiDef :=
  ⟨"legacyDef", [], some [⟨7, "Tab1"⟩], some exampleSections, none⟩

/-- Claim C1: the legacy serializer lays a definition out so that the
children of a visited section are exactly the sections of the list whose
`parentId` equals its id (formalized by the chain characterization of the
visit list, rooted at the given parent, with `none` the root case used by
`saveLegacyUiDefinition`); and on the three-section example the emitted
path nesting under the tab directory is A/B/C. -/
theorem c1_legacy_adjacency :
    (∀ (fuel : Nat) (sections : List LegacySection) (path : String) (pid : Option Nat)
        (s : LegacySection) (dir : String),
      (s, dir) ∈ saveLegacySections fuel sections path pid ↔
        ∃ cs, SectionChain sections pid (cs ++ [s]) ∧ cs.length + 1 ≤ fuel ∧
          dir = chainPath path (cs ++ [s])) ∧
    (legacyDefVisits exampleLegacyUi "path").map (fun v => v.2) =
      ["path/Tab1/A", "path/Tab1/A/B", "path/Tab1/A/B/C"] :=
  ⟨fun fuel sections => saveLegacySections_mem_iff_chain sections fuel, by decide⟩

/-- Witness for C1: the chain characterization applied to the deepest
visit of the example list. -/
theorem c1_legacy_adjacency_witness :
    ∃ cs, SectionChain exampleSections none
        (cs ++ [⟨3, some 2, 7, "C", none, none, none, none⟩]) ∧
      cs.length + 1 ≤ 3 ∧
      "p/A/B/C" = chainPath "p" (cs ++ [⟨3, some 2, 7, "C", none, none, none, none⟩]) :=
  (c1_legacy_adjacency.1 3 exampleSections "p" none
      ⟨3, some 2, 7, "C", none, none, none, none⟩ "p/A/B/C").mp (by decide)

/-! ## Claims C6 and C10: the legacy section metadata -/

/-- The file-path references recorded in a legacy section metadata. -/
def metaUrls (m : LegacySectionMeta) : List String :=
  [m.scriptUrl, m.templateUrl, m.propertiesUrl].filterMap (fun o => o)

theorem url_ne_of_ext_length (dir l e1 e2 : String) (h : e1.length ≠ e2.length) :
    dir ++ "/" ++ (l ++ e1) ≠ dir ++ "/" ++ (l ++ e2) := by
  intro he
  have hl := congrArg String.length he
  simp only [String.length_append] at hl
  omega

/-- Claim C6: the metadata recorded for a serialized legacy section keeps
none of the inline blob fields; each present blob is written to a file and
a file-path reference is recorded (styles into `scriptUrl`, as the source
does); the remaining section fields are carried over unchanged. -/
theorem c6_legacy_meta_frame (s : LegacySection) (dir : String) :
    ((saveLegacySectionFiles s dir).1.script = none ∧
     (saveLegacySectionFiles s dir).1.styles = none ∧
     (saveLegacySectionFiles s dir).1.template = none ∧
     (saveLegacySectionFiles s dir).1.properties = none) ∧
    ((saveLegacySectionFiles s dir).1.id = s.id ∧
     (saveLegacySectionFiles s dir).1.parentId = s.parentId ∧
     (saveLegacySectionFiles s dir).1.page = s.page ∧
     (saveLegacySectionFiles s dir).1.label = s.label) ∧
    (∀ sc, s.script = some sc →
      FsOp.write dir (s.label ++ ".js") (FileContent.text (fromBase64 sc)) ∈
        (saveLegacySectionFiles s dir).2 ∧
      (s.styles = none →
        (saveLegacySectionFiles s dir).1.scriptUrl =
          some (dir ++ "/" ++ (s.label ++ ".js")))) ∧
    (∀ st, s.styles = some st →
      FsOp.write dir (s.label ++ ".css") (FileContent.text (fromBase64 st)) ∈
        (saveLegacySectionFiles s dir).2 ∧
      (saveLegacySectionFiles s dir).1.scriptUrl =
        some (dir ++ "/" ++ (s.label ++ ".css"))) ∧
    (∀ t, s.template = some t →
      FsOp.write dir (s.label ++ ".html") (FileContent.text (fromBase64 t)) ∈
        (saveLegacySectionFiles s dir).2 ∧
      (saveLegacySectionFiles s dir).1.templateUrl =
        some (dir ++ "/" ++ (s.label ++ ".html"))) ∧
    (∀ p, s.properties = some p →
      FsOp.write dir (s.label ++ ".json") (FileContent.props p) ∈
        (saveLegacySectionFiles s dir).2 ∧
      (saveLegacySectionFiles s dir).1.propertiesUrl =
        some (dir ++ "/" ++ (s.label ++ ".json"))) := by
  obtain ⟨id, parentId, page, label, script, styles, template, properties⟩ := s
  cases script <;> cases styles <;> cases template <;> cases properties <;>
    simp [saveLegacySectionFiles]

/-- A legacy section carrying all four inline blobs. -/
def exampleFullSection : LegacySection :=
  ⟨5, none, 1, "S", some "QQ==", some "Qg==", some "Qw==", some "e30="⟩

/-- Witness for C6: evaluated on a section with all four blobs present. -/
theorem c6_legacy_meta_frame_witness :
    exampleFullSection.script = some "QQ==" ∧
    (saveLegacySectionFiles exampleFullSection "d").1.script = none ∧
    (saveLegacySectionFiles exampleFullSection "d").1.id = exampleFullSection.id ∧
    FsOp.write "d" (exampleFullSection.label ++ ".js")
        (FileContent.text (fromBase64 "QQ==")) ∈
      (saveLegacySectionFiles exampleFullSection "d").2 ∧
    (saveLegacySectionFiles exampleFullSection "d").1.scriptUrl =
      some ("d" ++ "/" ++ (exampleFullSection.label ++ ".css")) := by
  have h := c6_legacy_meta_frame exampleFullSection "d"
  exact ⟨rfl, h.1.1, h.2.1.1, (h.2.2.1 "QQ==" rfl).1, (h.2.2.2.1 "Qg==" rfl).2⟩

/-- Claim C10: when a legacy section has both a script and a styles blob,
the styles file path overwrites the script file path in the `scriptUrl`
field, no separate styles reference field exists, and the written .js file
is referenced nowhere in the resulting metadata. -/
theorem c10_styles_overwrite_scripturl (s : LegacySection) (dir : String)
    (a b : String) (hsc : s.script = some a) (hst : s.styles = some b) :
    (saveLegacySectionFiles s dir).1.scriptUrl =
      some (dir ++ "/" ++ (s.label ++ ".css")) ∧
    FsOp.write dir (s.label ++ ".js") (FileContent.text (fromBase64 a)) ∈
      (saveLegacySectionFiles s dir).2 ∧
    (dir ++ "/" ++ (s.label ++ ".js")) ∉ metaUrls (saveLegacySectionFiles s dir).1 := by
  obtain ⟨id, parentId, page, label, script, styles, template, properties⟩ := s
  simp only [LegacySection.script] at hsc
  simp only [LegacySection.styles] at hst
  subst hsc
  subst hst
  cases template <;> cases properties <;>
    simp [saveLegacySectionFiles, metaUrls] <;>
    (repeat' apply And.intro) <;>
    first
      | exact url_ne_of_ext_length dir label ".js" ".css" (by decide)
      | exact url_ne_of_ext_length dir label ".js" ".html" (by decide)
      | exact url_ne_of_ext_length dir label ".js" ".json" (by decide)

/-- Witness for C10: evaluated on the all-blobs example section. -/
theorem c10_styles_overwrite_scripturl_witness :
    exampleFullSection.script = some "QQ==" ∧
    exampleFullSection.styles = some "Qg==" ∧
    (saveLegacySectionFiles exampleFullSection "d").1.scriptUrl =
      some ("d" ++ "/" ++ (exampleFullSection.label ++ ".css")) ∧
    ("d" ++ "/" ++ (exampleFullSection.label ++ ".js")) ∉
      metaUrls (saveLegacySectionFiles exampleFullSection "d").1 := by
  have h := c10_styles_overwrite_scripturl exampleFullSection "d" "QQ==" "Qg==" rfl rfl
  exact ⟨rfl, rfl, h.1, h.2.2⟩

/-! ## Modern serializer (part_001 lines 138-182, claim C3)

`saveElement` writes one element directory and recurses into the children;
`saveUiDefinition` maps it over the children of a modern definition and
writes the definition metadata.  The element name is computed by the
element metadata extractor from the decoded script; the extractor lives in
the shared ui.utils (not under src), so it is abstracted as a function
parameter `extract` returning the declared name or nothing. -/

theorem UiElement.sizeOf_mem_children (el : UiElement) (x : UiElement)
    (h : x ∈ el.children) : sizeOf x < sizeOf el := by
  obtain ⟨s, st, t, ch⟩ := el
  have hlt := List.sizeOf_lt_of_mem h
  simp only [UiElement.children] at hlt
  simp only [UiElement.mk.sizeOf_spec]
  omega

/-- JavaScript template-literal interpolation of a possibly undefined
string (an undefined name interpolates as the text undefined). -/
def jsTemplateStr : Option String → String
  | none => "undefined"
  | some s => s

/-- The decoded script of an element: `el.script && fromBase64(el.script)`
with the empty string standing for the falsy cases (absent script, empty
script, empty decode). -/
def decodedScript (el : UiElement) : String :=
  match el.script with
  | none => ""
  | some s => fromBase64 s

/-- `saveElement`: skip entirely when the decoded script is falsy;
otherwise extract the name from the script, ensure the element directory
(named by the extracted name interpolated into the path) exists, write the
script and any styles and template, and recurse into the children.
Returns the extracted name (which the caller tests for truthiness). -/
def saveElement (extract : String → Option String) (el : UiElement) (path : String) :
    Option String × List FsOp :=
  let scriptText := decodedScript el
  if scriptText = "" then (none, [])
  else
    let elName := extract scriptText
    let elDir := path ++ "/" ++ jsTemplateStr elName
    (elName,
      FsOp.mkdir elDir ::
      FsOp.write elDir "script.ts" (FileContent.text scriptText) ::
      ((match el.styles with
        | some st => [FsOp.write elDir "styles.css" (FileContent.text (fromBase64 st))]
        | none => []) ++
       (match el.template with
        | some t => [FsOp.write elDir "template.html" (FileContent.text (fromBase64 t))]
        | none => []) ++
       el.children.attach.flatMap (fun c => (saveElement extract c.1 elDir).2)))
termination_by sizeOf el
decreasing_by
  exact UiElement.sizeOf_mem_children el c.1 c.2

theorem saveElement_unfold (extract : String → Option String) (el : UiElement) (path : String) :
    saveElement extract el path =
      if decodedScript el = "" then (none, [])
      else
        (extract (decodedScript el),
          FsOp.mkdir (path ++ "/" ++ jsTemplateStr (extract (decodedScript el))) ::
          FsOp.write (path ++ "/" ++ jsTemplateStr (extract (decodedScript el))) "script.ts"
            (FileContent.text (decodedScript el)) ::
          ((match el.styles with
            | some st => [FsOp.write (path ++ "/" ++ jsTemplateStr (extract (decodedScript el)))
                "styles.css" (FileContent.text (fromBase64 st))]
            | none => []) ++
           (match el.template with
            | some t => [FsOp.write (path ++ "/" ++ jsTemplateStr (extract (decodedScript el)))
                "template.html" (FileContent.text (fromBase64 t))]
            | none => []) ++
           el.children.flatMap (fun c => (saveElement extract c
             (path ++ "/" ++ jsTemplateStr (extract (decodedScript el)))).2))) := by
  rw [saveElement]
  split
  · rfl
  · simp [List.flatMap_def, List.attach_map_coe]

/-- An element is skipped entirely when its decoded script is falsy. -/
theorem saveElement_skip (extract : String → Option String) (el : UiElement) (path : String)
    (h : decodedScript el = "") : saveElement extract el path = (none, []) := by
  rw [saveElement_unfold, h]
  simp

/-- The ordered child name list collected by the reduce in
`saveUiDefinition`: a child contributes its extracted name when that name
is truthy. -/
def modernChildrenNames (extract : String → Option String) (children : List UiElement)
    (path : String) : List String :=
  children.foldl (fun acc c =>
    match (saveElement extract c path).1 with
    | some n => if n = "" then acc else acc ++ [n]
    | none => acc) []

/-- `saveUiDefinition`: write every child element recursively, then the
definition metadata carrying every field except `children`, which is
replaced by the collected child name list. -/
def saveUiDefinition (extract : String → Option String) (ui : UiDef)
    (children : List UiElement) (path : String) : List FsOp :=
  children.flatMap (fun c => (saveElement extract c path).2) ++
  [FsOp.write path "metadata.json"
    (FileContent.uiMeta ⟨ui.name, ui.attrs, ui.tabs, ui.sections,
      modernChildrenNames extract children path⟩)]

theorem modernChildrenNames_foldl_eq_filterMap (extract : String → Option String)
    (path : String) : ∀ (children : List UiElement) (acc : List String),
    children.foldl (fun acc c =>
      match (saveElement extract c path).1 with
      | some n => if n = "" then acc else acc ++ [n]
      | none => acc) acc =
    acc ++ children.filterMap (fun c =>
      match (saveElement extract c path).1 with
      | some n => if n = "" then none else some n
      | none => none) := by
  intro children
  induction children with
  | nil =>
    intro acc
    simp
  | cons c rest ih =>
    intro acc
    simp only [List.foldl_cons, List.filterMap_cons]
    cases h : (saveElement extract c path).1 with
    | none => simp [h, ih]
    | some n =>
      by_cases hn : n = ""
      · simp [h, hn, ih]
      · simp [h, hn, ih]

/-- The element whose script decodes to the text foo, in which the
extractor finds no name. -/
def exampleNoNameElement : UiElement := UiElement.mk (some "Zm9v") none none []

/-- Counterexample to claim C3 as stated: an element whose decoded script
is non-empty but yields no extractable name still produces a directory
(named undefined) and a script file; only the name entry is withheld. -/
theorem c3_unnamed_element_counterexample :
    decodedScript exampleNoNameElement ≠ "" ∧
    (fun _ : String => (none : Option String)) (decodedScript exampleNoNameElement) = none ∧
    saveElement (fun _ => none) exampleNoNameElement "p" =
      (none, [FsOp.mkdir "p/undefined",
              FsOp.write "p/undefined" "script.ts" (FileContent.text "foo")]) := by
  have hfoo : decodedScript exampleNoNameElement = "foo" := by decide
  refine ⟨by rw [hfoo]; decide, rfl, ?_⟩
  rw [saveElement_unfold, hfoo]
  simp [exampleNoNameElement, UiElement.styles, UiElement.template, UiElement.children,
    jsTemplateStr]

/-- A modern definition shell used to evaluate `saveUiDefinition`. -/
def exampleModernUi : UiDef := ⟨"modernDef", [], none, none, some [exampleNoNameElement]⟩

/-- Claim C3, amended: an element is skipped entirely (no directory, no
files, no name entry) exactly when its script is absent or decodes to the
empty text; an element with a non-empty decoded script always emits file
operations even when no name is extractable (it is only omitted from the
parent name list, together with every other non-truthy name); sibling
elements are unaffected by a skipped element. -/
theorem c3_unnamed_element_amended :
    (∀ (extract : String → Option String) (el : UiElement) (path : String),
      decodedScript el = "" → saveElement extract el path = (none, [])) ∧
    (∀ (extract : String → Option String) (el : UiElement) (path : String),
      decodedScript el ≠ "" → (saveElement extract el path).2 ≠ []) ∧
    (∀ (extract : String → Option String) (children : List UiElement) (path : String),
      modernChildrenNames extract children path =
        children.filterMap (fun c =>
          match (saveElement extract c path).1 with
          | some n => if n = "" then none else some n
          | none => none)) ∧
    (∀ (extract : String → Option String) (ui : UiDef) (pre post : List UiElement)
        (c : UiElement) (path : String),
      decodedScript c = "" →
      saveUiDefinition extract ui (pre ++ c :: post) path =
        saveUiDefinition extract ui (pre ++ post) path) := by
  refine ⟨saveElement_skip, ?_, ?_, ?_⟩
  · intro extract el path h
    rw [saveElement_unfold]
    simp [h]
  · intro extract children path
    unfold modernChildrenNames
    rw [modernChildrenNames_foldl_eq_filterMap]
    simp
  · intro extract ui pre post c path h
    have hc := saveElement_skip extract c path h
    unfold saveUiDefinition modernChildrenNames
    rw [modernChildrenNames_foldl_eq_filterMap, modernChildrenNames_foldl_eq_filterMap]
    simp [List.flatMap_append, List.filterMap_append, hc]

/-- Witness for the amended C3: evaluated on a scriptless element, on a
named-less element with non-empty script, and on a two-element sibling
list from which the scriptless element is dropped without affecting the
sibling. -/
theorem c3_unnamed_element_amended_witness :
    saveElement (fun _ => none) (UiElement.mk none none none []) "p" = (none, []) ∧
    (saveElement (fun _ => none) exampleNoNameElement "p").2 ≠ [] ∧
    saveUiDefinition (fun _ => none) exampleModernUi
        ([exampleNoNameElement] ++ UiElement.mk none none none [] :: []) "p" =
      saveUiDefinition (fun _ => none) exampleModernUi ([exampleNoNameElement] ++ []) "p" :=
  ⟨c3_unnamed_element_amended.1 _ _ _ (by decide),
   c3_unnamed_element_amended.2.1 _ _ _ (by decide),
   c3_unnamed_element_amended.2.2.2 _ _ [exampleNoNameElement] [] _ _ (by decide)⟩

/-! ## Definition-name inclusion filters (claim C8)

The library pull (part_001 lines 25-29 and 51-55) builds a map from model
name to definition name out of the model:definition pairs, later pairs
overwriting earlier ones for the same model, and includes a definition
when pulling all, when the map holds no truthy entry for the record, or
when the entry equals the definition name.  The CLI pull (pull.ts lines
308-313) instead scans all pairs of the record and includes the definition
when some pair has no definition name or one equal to it.  Both are
modelled over the same abstract pair list (model name, definition name),
the empty string standing for a missing definition name. -/

/-- The entry a JavaScript object built by assigning `acc[model] = def`
over the pair list holds for `name`: the last pair with that model. -/
def lookupLastDef : List (String × String) → String → Option String
  | [], _ => none
  | q :: rest, name =>
    match lookupLastDef rest name with
    | some d => some d
    | none => if q.1 == name then some q.2 else none

/-- The per-definition inclusion filter of the library pull. -/
def includeLib (dumpAll : Bool) (pairs : List (String × String))
    (recordName uiName : String) : Bool :=
  dumpAll ||
    (match lookupLastDef pairs recordName with
     | none => true
     | some d => d == "" || d == uiName)

/-- The per-definition inclusion filter of the CLI pull command. -/
def includeCli (noMembers : Bool) (pairs : List (String × String))
    (recordName uiName : String) : Bool :=
  noMembers ||
    (pairs.filter (fun p => p.1 == recordName)).any (fun p => p.2 == "" || p.2 == uiName)

theorem lookupLastDef_eq_none (Name : String) :
    ∀ pairs : List (String × String),
    pairs.filter (fun p => p.1 == Name) = [] → lookupLastDef pairs Name = none := by
  intro pairs
  induction pairs with
  | nil => intro _; rfl
  | cons q rest ih =>
    intro h
    simp only [List.filter_cons] at h
    cases hq : (q.1 == Name) with
    | true => simp [hq] at h
    | false =>
      simp only [hq, Bool.false_eq_true, if_false] at h
      simp [lookupLastDef, ih h, hq]

theorem lookupLastDef_single (Name : String) (pr : String × String) :
    ∀ pairs : List (String × String),
    pairs.filter (fun p => p.1 == Name) = [pr] → lookupLastDef pairs Name = some pr.2 := by
  intro pairs
  induction pairs with
  | nil => intro h; simp at h
  | cons q rest ih =>
    intro h
    simp only [List.filter_cons] at h
    cases hq : (q.1 == Name) with
    | true =>
      simp only [hq, if_true] at h
      have hqpr : q = pr ∧ rest.filter (fun p => p.1 == Name) = [] := by
        constructor
        · exact (List.cons_eq_cons.mp h).1
        · exact (List.cons_eq_cons.mp h).2
      obtain ⟨rfl, hnil⟩ := hqpr
      simp [lookupLastDef, lookupLastDef_eq_none Name rest hnil, hq]
    | false =>
      simp only [hq, Bool.false_eq_true, if_false] at h
      simp [lookupLastDef, ih h]

/-- Counterexample to claim C8: with the single pair (M, A) and a record
named N carrying a definition named B, the library filter includes the
definition while the CLI filter excludes it, so the two per-definition
inclusion filters are not equivalent. -/
theorem c8_filter_equivalence_counterexample :
    includeLib false [("M", "A")] "N" "B" = true ∧
    includeCli false [("M", "A")] "N" "B" = false := by
  decide

/-- Claim C8, amended: the library and CLI inclusion filters agree when
pulling everything, and when the record name has exactly one pair in the
specification; they diverge otherwise (a record with no pair: the library
includes all its definitions, the CLI none; a record with several pairs:
the library honours only the last, the CLI any of them). -/
theorem c8_filter_equivalence_amended (dumpAll : Bool) (pairs : List (String × String))
    (recordName uiName : String)
    (h : dumpAll = true ∨ (pairs.filter (fun p => p.1 == recordName)).length = 1) :
    includeLib dumpAll pairs recordName uiName = includeCli dumpAll pairs recordName uiName := by
  rcases h with h | h
  · subst h
    rfl
  · obtain ⟨pr, hpr⟩ : ∃ pr, pairs.filter (fun p => p.1 == recordName) = [pr] := by
      cases hf : pairs.filter (fun p => p.1 == recordName) with
      | nil => rw [hf] at h; simp at h
      | cons a rest =>
        cases rest with
        | nil => exact ⟨a, rfl⟩
        | cons b r2 => rw [hf] at h; simp at h
    simp [includeLib, includeCli, lookupLastDef_single recordName pr pairs hpr, hpr]

/-- Witness for the amended C8: a record with exactly one pair, on which
both filters agree. -/
theorem c8_filter_equivalence_amended_witness :
    ((([("M", "A")] : List (String × String)).filter (fun p => p.1 == "M")).length = 1) ∧
    includeLib false [("M", "A")] "M" "A" = includeCli false [("M", "A")] "M" "A" :=
  ⟨by decide, c8_filter_equivalence_amended false [("M", "A")] "M" "A" (Or.inr (by decide))⟩

/-! ## Pull orchestration (part_001 lines 22-78, claims C4, C5)

The per-record pipeline: JSON-parse the decoded document content (failure
is caught, logged naming the record, and skips the record), then for each
included definition dispatch on the legacy detector; the modern branch
destructures `children` and calls `children.reduce`, which raises a
TypeError when the definition has no children collection, aborting the
record (the `forEach` callbacks have no handler), so the embedding threads
an `Except`-style crash through the folds.  JSON.parse and the element
name extractor are external and passed as parameters. -/

/-- Modelled from the spec: the legacy format detector `isLegacyDefinition`
(shared ui.utils, not under src).  Spec section 4.2: a pure structural
test, true iff the object exposes the `tabs` and `sections` collections,
false otherwise. -/
def isLegacyDefinition (ui : UiDef) : Bool := ui.tabs.isSome && ui.sections.isSome

/-- Dispatch one included definition: the legacy branch accumulates its
metadata object, the modern branch writes the element tree, and a modern
dispatch without a `children` collection raises. -/
def processUiDef (extract : String → Option String) (ui : UiDef) (uiDir : String) :
    Except String (List FsOp × Option LegacyMetaOut) :=
  if isLegacyDefinition ui then
    Except.ok ((saveLegacyUiDefinition ui uiDir).2, some (saveLegacyUiDefinition ui uiDir).1)
  else
    match ui.children with
    | none => Except.error "TypeError: cannot read children of undefined"
    | some ch => Except.ok (saveUiDefinition extract ui ch uiDir, none)

/-- Fold of `uiDefs.forEach` over the definitions of one record: emitted
operations, accumulated legacy metadata array, and the first uncaught
error if one was raised (which aborts the remaining definitions). -/
def processUiDefs (extract : String → Option String) (dumpAll : Bool)
    (pairs : List (String × String)) (recordName path : String) :
    List UiDef → List FsOp × List LegacyMetaOut × Option String
  | [] => ([], [], none)
  | ui :: rest =>
    if includeLib dumpAll pairs recordName ui.name then
      match processUiDef extract ui (path ++ "/" ++ ui.name) with
      | Except.error e => ([], [], some e)
      | Except.ok (ops, lm) =>
        let r := processUiDefs extract dumpAll pairs recordName path rest
        (ops ++ r.1, (match lm with | some m => m :: r.2.1 | none => r.2.1), r.2.2)
    else
      processUiDefs extract dumpAll pairs recordName path rest

/-- Result of one record of the pull batch: log lines, emitted file
operations, whether the record name was added to the pm-dump set, and the
uncaught error if the record crashed. -/
structure RecordOut where
  logs : List String
  ops : List FsOp
  pmAdded : Bool
  crash : Option String

/-- One record of the pull (`contents.forEach` body): parse the content
(logging and skipping the record on failure), process its definitions,
write the aggregated legacy metadata file when non-empty, and mark the
record for the pm dump. -/
def processRecord (parse : String → Option (List UiDef)) (extract : String → Option String)
    (dumpAll : Bool) (pairs : List (String × String))
    (sourcepath recordName content : String) : RecordOut :=
  match parse content with
  | none => ⟨["Failed to parse document content: " ++ recordName], [], false, none⟩
  | some uiDefs =>
    let path := sourcepath ++ "/" ++ recordName
    let r := processUiDefs extract dumpAll pairs recordName path uiDefs
    match r.2.2 with
    | some e => ⟨[], r.1, false, some e⟩
    | none =>
      ⟨[], r.1 ++ (if r.2.1.isEmpty then [] else
        [FsOp.write path "metadata.json" (FileContent.legacyArr r.2.1)]), true, none⟩

/-- Aggregate outcome of the batch loop over the fetched records. -/
structure BatchOut where
  logs : List String
  ops : List FsOp
  pms : List String
  crash : Option String

/-- The batch loop of `pullUI` over (record name, fetched content) pairs:
sequential, an uncaught error in one record aborting the remaining ones
(the outer `forEach` has no handler either). -/
def processBatch (parse : String → Option (List UiDef)) (extract : String → Option String)
    (dumpAll : Bool) (pairs : List (String × String)) (sourcepath : String) :
    List (String × String) → BatchOut
  | [] => ⟨[], [], [], none⟩
  | (recordName, content) :: rest =>
    let r := processRecord parse extract dumpAll pairs sourcepath recordName content
    match r.crash with
    | some e => ⟨r.logs, r.ops, [], some e⟩
    | none =>
      let b := processBatch parse extract dumpAll pairs sourcepath rest
      ⟨r.logs ++ b.logs, r.ops ++ b.ops,
        (if r.pmAdded then [recordName] else []) ++ b.pms, b.crash⟩

theorem processBatch_splice (parse : String → Option (List UiDef))
    (extract : String → Option String) (dumpAll : Bool) (pairs : List (String × String))
    (sourcepath : String) (recordName content : String) (post : List (String × String))
    (hfail : parse content = none) :
    ∀ pre : List (String × String),
    (processBatch parse extract dumpAll pairs sourcepath
        (pre ++ (recordName, content) :: post)).ops =
      (processBatch parse extract dumpAll pairs sourcepath (pre ++ post)).ops ∧
    (processBatch parse extract dumpAll pairs sourcepath
        (pre ++ (recordName, content) :: post)).pms =
      (processBatch parse extract dumpAll pairs sourcepath (pre ++ post)).pms ∧
    (processBatch parse extract dumpAll pairs sourcepath
        (pre ++ (recordName, content) :: post)).crash =
      (processBatch parse extract dumpAll pairs sourcepath (pre ++ post)).crash ∧
    ((processBatch parse extract dumpAll pairs sourcepath pre).crash = none →
      ("Failed to parse document content: " ++ recordName) ∈
        (processBatch parse extract dumpAll pairs sourcepath
          (pre ++ (recordName, content) :: post)).logs) := by
  intro pre
  induction pre with
  | nil =>
    refine ⟨?_, ?_, ?_, fun _ => ?_⟩ <;>
      simp [processBatch, processRecord, hfail]
  | cons hd pre ih =>
    obtain ⟨n1, c1⟩ := hd
    simp only [List.cons_append, processBatch]
    cases hcr : (processRecord parse extract dumpAll pairs sourcepath n1 c1).crash with
    | some e =>
      refine ⟨rfl, rfl, rfl, ?_⟩
      intro hnone
      simp only [processBatch, hcr] at hnone
      exact Option.noConfusion hnone
    | none =>
      refine ⟨?_, ?_, ?_, ?_⟩
      · simp [processBatch, hcr, ih.1]
      · simp [processBatch, hcr, ih.2.1]
      · simp [processBatch, hcr, ih.2.2.1]
      · intro hnone
        simp only [processBatch, hcr] at hnone
        simp only [processBatch, hcr, List.mem_append]
        exact Or.inr (ih.2.2.2 hnone)

/-- Claim C4: a record whose content fails to JSON-parse produces exactly
one log line naming the record and no file operations and no pm-dump mark,
and its presence in the batch changes no other output of the batch (the
emitted operations, pm-dump names and crash state are those of the batch
without it, and when the records before it complete, the failure log line
appears in the batch log). -/
theorem c4_parse_failure_isolation (parse : String → Option (List UiDef))
    (extract : String → Option String) (dumpAll : Bool) (pairs : List (String × String))
    (sourcepath : String) (pre post : List (String × String)) (recordName content : String)
    (hfail : parse content = none) :
    processRecord parse extract dumpAll pairs sourcepath recordName content =
      ⟨["Failed to parse document content: " ++ recordName], [], false, none⟩ ∧
    (processBatch parse extract dumpAll pairs sourcepath
        (pre ++ (recordName, content) :: post)).ops =
      (processBatch parse extract dumpAll pairs sourcepath (pre ++ post)).ops ∧
    (processBatch parse extract dumpAll pairs sourcepath
        (pre ++ (recordName, content) :: post)).pms =
      (processBatch parse extract dumpAll pairs sourcepath (pre ++ post)).pms ∧
    (processBatch parse extract dumpAll pairs sourcepath
        (pre ++ (recordName, content) :: post)).crash =
      (processBatch parse extract dumpAll pairs sourcepath (pre ++ post)).crash ∧
    ((processBatch parse extract dumpAll pairs sourcepath pre).crash = none →
      ("Failed to parse document content: " ++ recordName) ∈
        (processBatch parse extract dumpAll pairs sourcepath
          (pre ++ (recordName, content) :: post)).logs) := by
  have h := processBatch_splice parse extract dumpAll pairs sourcepath recordName content post
    hfail pre
  exact ⟨by simp [processRecord, hfail], h.1, h.2.1, h.2.2.1, h.2.2.2⟩

/-- A concrete parse function failing exactly on the content bad. -/
def witnessParse : String → Option (List UiDef) := fun s => if s = "bad" then none else some []

def witnessExtract : String → Option String := fun _ => none

/-- Witness for C4: a three-record batch whose middle record is
unparsable; the other two still produce the same output and the failure
is logged naming the middle record. -/
theorem c4_parse_failure_isolation_witness :
    witnessParse "bad" = none ∧
    (processBatch witnessParse witnessExtract true [] "src"
        ([("r1", "ok")] ++ ("r2", "bad") :: [("r3", "ok")])).ops =
      (processBatch witnessParse witnessExtract true [] "src"
        ([("r1", "ok")] ++ [("r3", "ok")])).ops ∧
    (processBatch witnessParse witnessExtract true [] "src"
        ([("r1", "ok")] ++ ("r2", "bad") :: [("r3", "ok")])).pms =
      (processBatch witnessParse witnessExtract true [] "src"
        ([("r1", "ok")] ++ [("r3", "ok")])).pms ∧
    ("Failed to parse document content: " ++ "r2") ∈
      (processBatch witnessParse witnessExtract true [] "src"
        ([("r1", "ok")] ++ ("r2", "bad") :: [("r3", "ok")])).logs := by
  have h := c4_parse_failure_isolation witnessParse witnessExtract true [] "src"
    [("r1", "ok")] [("r3", "ok")] "r2" "bad" rfl
  exact ⟨rfl, h.2.1, h.2.2.1, h.2.2.2.2 rfl⟩

/-! ## Claim C5: definitions of unrecognized shape -/

/-- A definition exposing neither tabs/sections nor children. -/
def exampleShapelessUi : UiDef := ⟨"u", [], none, none, none⟩

/-- A modern definition with an empty children collection. -/
def exampleEmptyModernUi : UiDef := ⟨"m", [], none, none, some []⟩

theorem processUiDef_shapeless (extract : String → Option String) (ui : UiDef)
    (uiDir : String) (hshape : ui.tabs = none ∨ ui.sections = none)
    (hch : ui.children = none) :
    isLegacyDefinition ui = false ∧
    processUiDef extract ui uiDir = Except.error "TypeError: cannot read children of undefined" := by
  have hleg : isLegacyDefinition ui = false := by
    rcases hshape with h | h <;> simp [isLegacyDefinition, h]
  exact ⟨hleg, by simp [processUiDef, hleg, hch]⟩

/-- Counterexample to claim C5: a definition with neither collection is
not reported as an unrecognized shape; the detector classifies it as
non-legacy, the modern branch raises a TypeError on the missing children
collection, and the sibling definition after it is not processed (alone it
would produce one write). -/
theorem c5_shape_error_counterexample :
    isLegacyDefinition exampleShapelessUi = false ∧
    processUiDef witnessExtract exampleShapelessUi "d" =
      Except.error "TypeError: cannot read children of undefined" ∧
    (processUiDefs witnessExtract true [] "N" "p"
      [exampleShapelessUi, exampleEmptyModernUi]) =
      ([], [], some "TypeError: cannot read children of undefined") ∧
    (processUiDefs witnessExtract true [] "N" "p" [exampleEmptyModernUi]).1.length = 1 :=
  ⟨rfl, rfl, rfl, rfl⟩

/-- Claim C5, amended: there is no unrecognized-definition-shape error in
the code: a definition exposing neither the tabs/sections collections nor
a children collection is classified as non-legacy and silently sent down
the modern branch, which raises a TypeError on the missing children
collection; when the definition is included, that error aborts the whole
record (no operations are emitted, the remaining definitions are not
processed) instead of skipping only that definition. -/
theorem c5_shape_error_amended (extract : String → Option String) (ui : UiDef)
    (uiDir : String) (hshape : ui.tabs = none ∨ ui.sections = none)
    (hch : ui.children = none) :
    isLegacyDefinition ui = false ∧
    processUiDef extract ui uiDir = Except.error "TypeError: cannot read children of undefined" ∧
    (∀ (dumpAll : Bool) (pairs : List (String × String)) (recordName path : String)
        (rest : List UiDef),
      includeLib dumpAll pairs recordName ui.name = true →
      processUiDefs extract dumpAll pairs recordName path (ui :: rest) =
        ([], [], some "TypeError: cannot read children of undefined")) := by
  obtain ⟨hleg, herr⟩ := processUiDef_shapeless extract ui uiDir hshape hch
  refine ⟨hleg, herr, ?_⟩
  intro dumpAll pairs recordName path rest hinc
  have herr2 := (processUiDef_shapeless extract ui (path ++ "/" ++ ui.name) hshape hch).2
  simp [processUiDefs, hinc, herr2]

/-- Witness for the amended C5: the shapeless definition aborts a
two-definition record. -/
theorem c5_shape_error_amended_witness :
    exampleShapelessUi.children = none ∧
    isLegacyDefinition exampleShapelessUi = false ∧
    processUiDefs witnessExtract true [] "N" "p"
        [exampleShapelessUi, exampleEmptyModernUi] =
      ([], [], some "TypeError: cannot read children of undefined") := by
  have h := c5_shape_error_amended witnessExtract exampleShapelessUi "d" (Or.inl rfl) rfl
  exact ⟨rfl, h.1, h.2.2 true [] "N" "p" [exampleEmptyModernUi] rfl⟩

/-! ## Push orchestration (part_000, claims C7, C9)

`pushUI` resolves the shared container folder once (fetch, create when
absent), then for every fetched product model record packs the local
definition tree (the builder lives outside src and is abstracted), encodes
it (gzip then base64 twice), and upserts: update the document found by the
stored UI-definitions document reference of the record, otherwise create one in
the container folder.  The remote lookups are abstracted as environment
fields; the emitted remote calls are returned as a list of actions. -/

/-- The well-known shared container folder name. -/
def FOLDER_NAME : String := "velo_product_models"

/-- The document body sent to the remote store. -/
structure DocumentBody where
  folderId : String
  body : List Nat
  name : String

/-- The remote upsert performed for one record. -/
inductive PushAction where
  | update (docId : String) (body : DocumentBody)
  | create (body : DocumentBody)

/-- Environment of one push run: the result of looking up the folder named
`FOLDER_NAME`, the id a folder creation returns, the per-reference
document lookup, the packed definitions JSON per record name (the tree
builder, outside src), and the compressor. -/
structure PushEnv where
  fetchFolderId : Option String
  createdFolderId : String
  fetchDocumentId : String → Option String
  packed : String → String
  gzipF : List Nat → List Nat

/-- The fields of a fetched product model record used by the push. -/
structure PushRecordIn where
  Name : String
  uiDefinitionsId : String

/-- The value `pushUI` returns to the caller. -/
structure UiPushReturn where
  uiRecords : List String
  uiPmsToUpload : List String
deriving DecidableEq, Repr

/-- Character codes of a text (`Buffer.from(s)` for ASCII text). -/
def strCodes (s : String) : List Nat := s.data.map Char.toNat

/-- `pushUI`: resolve the folder once, then map every record to its upsert
action; returns the emitted actions and the (constant) return value. -/
def pushUI (env : PushEnv) (records : List PushRecordIn) :
    List PushAction × UiPushReturn :=
  let folderId :=
    match env.fetchFolderId with
    | some i => i
    | none => env.createdFolderId
  (records.map (fun r =>
    let b64Data := b64EncodeLoop (b64EncodeLoop (env.gzipF (strCodes (env.packed r.Name))))
    let documentBody : DocumentBody := ⟨folderId, b64Data, r.Name⟩
    match env.fetchDocumentId r.uiDefinitionsId with
    | some docId => PushAction.update docId documentBody
    | none => PushAction.create documentBody),
   ⟨[], []⟩)

/-- Claim C7: for every pushed record, the orchestrator looks the
definitions document up by the stored document reference of the record and
updates it in place when it exists, otherwise creates a document with the
same encoded body inside the resolved shared container folder. -/
theorem c7_push_upsert (env : PushEnv) (records : List PushRecordIn) (i : Nat)
    (r : PushRecordIn) (h : records[i]? = some r) :
    (pushUI env records).1[i]? = some
      (match env.fetchDocumentId r.uiDefinitionsId with
       | some docId => PushAction.update docId
           ⟨(match env.fetchFolderId with
             | some fid => fid
             | none => env.createdFolderId),
            b64EncodeLoop (b64EncodeLoop (env.gzipF (strCodes (env.packed r.Name)))), r.Name⟩
       | none => PushAction.create
           ⟨(match env.fetchFolderId with
             | some fid => fid
             | none => env.createdFolderId),
            b64EncodeLoop (b64EncodeLoop (env.gzipF (strCodes (env.packed r.Name)))), r.Name⟩) := by
  simp [pushUI, List.getElem?_map, h]

/-- A concrete push environment: no existing folder, no existing
documents, identity compressor, constant packed body. -/
def witnessPushEnv : PushEnv :=
  ⟨none, "folder1", fun _ => none, fun _ => "[]", fun l => l⟩

/-- Witness for C7: a record with no existing document is created inside
the freshly created folder. -/
theorem c7_push_upsert_witness :
    ([(⟨"PM1", "doc1"⟩ : PushRecordIn)])[0]? = some ⟨"PM1", "doc1"⟩ ∧
    (pushUI witnessPushEnv [⟨"PM1", "doc1"⟩]).1[0]? = some (PushAction.create
      ⟨"folder1",
       b64EncodeLoop (b64EncodeLoop (witnessPushEnv.gzipF
         (strCodes (witnessPushEnv.packed "PM1")))), "PM1"⟩) :=
  ⟨rfl, c7_push_upsert witnessPushEnv [⟨"PM1", "doc1"⟩] 0 ⟨"PM1", "doc1"⟩ rfl⟩

/-! ## Claim C9: the aggregate outcome -/

/-- Counterexample to claim C9: a push that processed one record (one
remote action was emitted) still returns the empty outcome: the value
returned by a push reflects nothing about which records were processed. -/
theorem c9_aggregate_outcome_counterexample :
    (pushUI witnessPushEnv [⟨"PM1", "doc1"⟩]).1.length = 1 ∧
    (pushUI witnessPushEnv [⟨"PM1", "doc1"⟩]).2.uiRecords = [] ∧
    (pushUI witnessPushEnv [⟨"PM1", "doc1"⟩]).2.uiPmsToUpload = [] :=
  ⟨rfl, rfl, rfl⟩

/-- Claim C9, amended: the push return value is the constant empty outcome
regardless of the batch; the pull does report per-record progress: when
the batch runs to completion, the pm-dump name set is exactly the names of
the records whose content parsed (parse-failing records are omitted),
identifying records by name. -/
theorem c9_aggregate_outcome_amended :
    (∀ (env : PushEnv) (records : List PushRecordIn),
      (pushUI env records).2 = ⟨[], []⟩) ∧
    (∀ (parse : String → Option (List UiDef)) (extract : String → Option String)
        (dumpAll : Bool) (pairs : List (String × String)) (sourcepath : String)
        (records : List (String × String)),
      (processBatch parse extract dumpAll pairs sourcepath records).crash = none →
      (processBatch parse extract dumpAll pairs sourcepath records).pms =
        (records.filter (fun rc => (parse rc.2).isSome)).map (fun rc => rc.1)) := by
  constructor
  · intro env records
    rfl
  · intro parse extract dumpAll pairs sourcepath records
    induction records with
    | nil => intro _; rfl
    | cons hd rest ih =>
      obtain ⟨n, c⟩ := hd
      intro hnone
      cases hp : parse c with
      | none =>
        have hrec : processRecord parse extract dumpAll pairs sourcepath n c =
            ⟨["Failed to parse document content: " ++ n], [], false, none⟩ := by
          simp [processRecord, hp]
        simp only [processBatch, hrec] at hnone ⊢
        simp only [List.filter_cons, hp, Option.isSome_none, Bool.false_eq_true, if_false]
        simpa using ih (by simpa using hnone)
      | some uiDefs =>
        cases hdefs : (processUiDefs extract dumpAll pairs n (sourcepath ++ "/" ++ n)
            uiDefs).2.2 with
        | some e =>
          have hcr : (processRecord parse extract dumpAll pairs sourcepath n c).crash =
              some e := by
            simp [processRecord, hp, hdefs]
          simp only [processBatch, hcr] at hnone
          exact Option.noConfusion hnone
        | none =>
          have hcr : (processRecord parse extract dumpAll pairs sourcepath n c).crash =
              none := by
            simp [processRecord, hp, hdefs]
          have hpm : (processRecord parse extract dumpAll pairs sourcepath n c).pmAdded =
              true := by
            simp [processRecord, hp, hdefs]
          simp only [processBatch, hcr] at hnone ⊢
          rw [hpm]
          simp only [List.filter_cons, hp, Option.isSome_some, if_true, List.map_cons]
          simp [ih hnone]

/-- Witness for the amended C9: the push outcome of a one-record batch is
empty, and a crash-free two-record pull batch with one unparsable record
reports exactly the name of the parsable one. -/
theorem c9_aggregate_outcome_amended_witness :
    (pushUI witnessPushEnv [⟨"PM1", "doc1"⟩]).2 = ⟨[], []⟩ ∧
    (processBatch witnessParse witnessExtract true [] "src"
        [("r1", "ok"), ("r2", "bad")]).crash = none ∧
    (processBatch witnessParse witnessExtract true [] "src"
        [("r1", "ok"), ("r2", "bad")]).pms =
      ((([("r1", "ok"), ("r2", "bad")] : List (String × String)).filter
        (fun rc => (witnessParse rc.2).isSome)).map (fun rc => rc.1)) :=
  ⟨c9_aggregate_outcome_amended.1 witnessPushEnv [⟨"PM1", "doc1"⟩], rfl,
   c9_aggregate_outcome_amended.2 witnessParse witnessExtract true [] "src"
     [("r1", "ok"), ("r2", "bad")] rfl⟩
